import Mathlib

/-!
Verification of the DeliveryLpg routing core against its specification.

The repository solves a CVRPTW by registering constraints with an external
routing library and post-processing whatever solution the library returns
(src/src/optimization/vrp_solver.py), plus a greedy nearest-neighbour
baseline and a geographic distance/time matrix builder
(src/src/data/distance_matrix.py).

Shallow embedding conventions:
- distances, times, demands and capacities are rationals (Python floats/ints,
  no float rounding is load-bearing for any property below);
- the external solver is modelled abstractly: a returned solution is any
  assignment of node sequences to vehicles satisfying exactly the constraints
  the source registers (visit-each-node-once, the capacity dimension with zero
  slack, and - when enabled - the time dimension with slack 30, horizon
  max_route_duration_hours*60, per-node windows and the depot start window);
- Python loops that provably terminate are structural recursion; the greedy
  baseline outer loop, which can genuinely diverge, takes explicit fuel;
- the Python set of small ints `unvisited` iterates in ascending order in
  CPython; it is embedded as an ascending list.
-/

namespace DeliveryLpg

/-- Config values from src/src/utils/config.py (DeliveryConfig dataclass). -/
structure DeliveryConfig where
  vehicleCapacity : ℚ
  maxRouteDurationHours : ℚ
  workingHoursStart : Nat
  workingHoursEnd : Nat

/-- The global DELIVERY instance with its default field values. -/
def defaultDelivery : DeliveryConfig :=
  { vehicleCapacity := 80
    maxRouteDurationHours := 8
    workingHoursStart := 8
    workingHoursEnd := 18 }

/-- Config values from OptimizationConfig (src/src/utils/config.py). -/
structure OptimizationConfig where
  maxVehicles : Nat

/-- The global OPTIMIZATION instance. -/
def defaultOptimization : OptimizationConfig :=
  { maxVehicles := 10 }

/-- VRPSolver._time_to_minutes: "HH:MM" parsed as hour*60 + minute. -/
def timeToMinutes (hour minute : Nat) : Nat := hour * 60 + minute

/-- The data model dictionary built by VRPSolver._create_data_model. -/
structure DataModel where
  distanceMatrix : List (List ℚ)
  timeMatrix : List (List ℚ)
  demands : List ℚ
  vehicleCapacities : List ℚ
  numVehicles : Nat
  depot : Nat

/-- VRPSolver._create_data_model: if num_vehicles is None it defaults to
min(OPTIMIZATION.max_vehicles, max(3, num_locations // 5)); the capacity list
is [DELIVERY.vehicle_capacity] * num_vehicles and the depot is location 0.
No validation of any kind is performed. -/
def createDataModel (cfg : DeliveryConfig) (opt : OptimizationConfig)
    (numLocations : Nat) (distM timeM : List (List ℚ)) (demands : List ℚ)
    (numVehicles : Option Nat) : DataModel :=
  let nv := match numVehicles with
    | none => min opt.maxVehicles (max 3 (numLocations / 5))
    | some n => n
  { distanceMatrix := distM
    timeMatrix := timeM
    demands := demands
    vehicleCapacities := List.replicate nv cfg.vehicleCapacity
    numVehicles := nv
    depot := 0 }

/-! ## The routing problem and the constraint model registered with the
external solver (VRPSolver.solve_vrp, lines 105-216). -/

/-- The inputs of one solve call: location count, matrices (as functions of
positional indices, as the registered callbacks read them), demands, time
windows in minutes since midnight, vehicle count and the shared capacity. -/
structure Problem where
  n : Nat
  dist : Nat → Nat → ℚ
  tmat : Nat → Nat → ℚ
  dem : Nat → ℚ
  winLo : Nat → ℚ
  winHi : Nat → ℚ
  numVehicles : Nat
  cap : ℚ

/-- An abstract solution of the external routing model: for each vehicle, the
ordered sequence of (non-depot) nodes it visits between leaving and
re-entering the depot. -/
structure RoutingSolution where
  routes : List (List Nat)

/-- Cost of travelling from cur through the listed nodes and back to the
depot (node 0); an unused vehicle contributes the arc dist 0 0.  This is the
arc-cost objective the source registers via SetArcCostEvaluatorOfAllVehicles. -/
def pathCost (dist : Nat → Nat → ℚ) : Nat → List Nat → ℚ
  | cur, [] => dist cur 0
  | cur, v :: rest => dist cur v + pathCost dist v rest

/-- The solver objective: total arc cost over all vehicles. -/
def solutionCost (dist : Nat → Nat → ℚ) (s : RoutingSolution) : ℚ :=
  (s.routes.map (pathCost dist 0)).sum

/-- Every node index 1..n-1 is served exactly once across all vehicles (the
model adds no disjunctions, so every node is mandatory), the route list has
one entry per vehicle, and routes only hold genuine in-range non-depot nodes. -/
def VisitsOnce (p : Problem) (s : RoutingSolution) : Prop :=
  s.routes.length = p.numVehicles ∧
  (∀ r ∈ s.routes, ∀ v ∈ r, 0 < v ∧ v < p.n) ∧
  (∀ j, 0 < j → j < p.n → (s.routes.map (fun r => r.count j)).sum = 1)

/-- The capacity dimension (AddDimensionWithVehicleCapacity with zero slack
and start cumul zero): the running demand total after each served stop stays
at or below the vehicle capacity. -/
def CapacityOk (dem : Nat → ℚ) (cap : ℚ) : ℚ → List Nat → Prop
  | _, [] => True
  | acc, v :: rest => acc + dem v ≤ cap ∧ CapacityOk dem cap (acc + dem v) rest

/-- The time dimension transitions out of node cur at cumul t: each arc adds
the time-matrix value plus a slack (waiting time) in [0, 30]; the cumul at
every visited node must lie in that node's window and in [0, H] (H is the
dimension capacity passed as max_route_duration_hours*60), and the final
cumul at the route end must lie in [0, H]. -/
def TimeOk (tmat : Nat → Nat → ℚ) (winLo winHi : Nat → ℚ) (H : ℚ) :
    Nat → ℚ → List Nat → Prop
  | cur, t, [] =>
      ∃ s, 0 ≤ s ∧ s ≤ 30 ∧ 0 ≤ t + tmat cur 0 + s ∧ t + tmat cur 0 + s ≤ H
  | cur, t, v :: rest =>
      ∃ s, 0 ≤ s ∧ s ≤ 30 ∧
        winLo v ≤ t + tmat cur v + s ∧ t + tmat cur v + s ≤ winHi v ∧
        0 ≤ t + tmat cur v + s ∧ t + tmat cur v + s ≤ H ∧
        TimeOk tmat winLo winHi H v (t + tmat cur v + s) rest

/-- The horizon handed to AddDimension as its capacity argument. -/
def horizon (cfg : DeliveryConfig) : ℚ := cfg.maxRouteDurationHours * 60

/-- Time feasibility of one vehicle's route: the depot start cumul lies both
in the depot window (the SetRange on routing.Start) and in [0, H] (the
dimension capacity bounds every cumul, the start included), and the
transitions respect windows and the horizon. -/
def RouteTimeOk (p : Problem) (cfg : DeliveryConfig) (nodes : List Nat) : Prop :=
  ∃ t0 : ℚ, p.winLo 0 ≤ t0 ∧ t0 ≤ p.winHi 0 ∧ 0 ≤ t0 ∧ t0 ≤ horizon cfg ∧
    TimeOk p.tmat p.winLo p.winHi (horizon cfg) 0 t0 nodes

/-- A solution satisfying exactly the constraints solve_vrp registers: the
node partition, the capacity dimension on every vehicle, and - when
include_time_windows is set - the time dimension on every vehicle. -/
def Feasible (p : Problem) (cfg : DeliveryConfig) (useTW : Bool)
    (s : RoutingSolution) : Prop :=
  VisitsOnce p s ∧
  (∀ r ∈ s.routes, CapacityOk p.dem p.cap 0 r) ∧
  (useTW = true → ∀ r ∈ s.routes, RouteTimeOk p cfg r)

/-- An optimal solution: feasible and of minimal objective among feasible
solutions (the abstract contract of the library search the code invokes). -/
def OptimalFor (p : Problem) (cfg : DeliveryConfig) (useTW : Bool)
    (s : RoutingSolution) : Prop :=
  Feasible p cfg useTW s ∧
  ∀ s2, Feasible p cfg useTW s2 → solutionCost p.dist s ≤ solutionCost p.dist s2

/-! ## Solution extraction (VRPSolver._extract_routes, lines 233-271, and
VRPSolver._create_solution_dict, lines 273-287). -/

/-- One entry of the extracted route list. -/
structure RouteDict where
  vehicleId : Nat
  stops : List Nat
  totalDistance : ℚ
  totalDemand : ℚ
deriving DecidableEq, Repr

/-- The distance accumulated by the extraction loop: it adds the arc cost
from each visited node to its successor only while the successor is not the
route end, so the final return arc into the depot is never added. -/
def partialPathCost (dist : Nat → Nat → ℚ) : Nat → List Nat → ℚ
  | _, [] => 0
  | cur, v :: rest => dist cur v + partialPathCost dist v rest

/-- The route dictionary _extract_routes builds for a vehicle that made at
least one delivery: stops collect the depot and the visited nodes in order,
then 0 is appended as the return; demand sums over non-depot stops. -/
def extractRoute (dist : Nat → Nat → ℚ) (dem : Nat → ℚ) (vid : Nat)
    (nodes : List Nat) : RouteDict :=
  { vehicleId := vid
    stops := 0 :: nodes ++ [0]
    totalDistance := partialPathCost dist 0 nodes
    totalDemand := ((nodes.filter (fun v => ¬ v = 0)).map dem).sum }

/-- The per-vehicle loop of _extract_routes: a vehicle whose stop list is just
the depot (no deliveries) is dropped from the returned list. -/
def extractRoutesAux (dist : Nat → Nat → ℚ) (dem : Nat → ℚ) :
    Nat → List (List Nat) → List RouteDict
  | _, [] => []
  | vid, nodes :: rest =>
      if nodes = [] then extractRoutesAux dist dem (vid + 1) rest
      else extractRoute dist dem vid nodes :: extractRoutesAux dist dem (vid + 1) rest

/-- VRPSolver._extract_routes over all vehicles. -/
def extractRoutes (dist : Nat → Nat → ℚ) (dem : Nat → ℚ)
    (s : RoutingSolution) : List RouteDict :=
  extractRoutesAux dist dem 0 s.routes

/-- The public result shape of _create_solution_dict (the fields the claims
are about). -/
structure SolutionDict where
  status : String
  objectiveValue : ℚ
  numVehiclesUsed : Nat
  totalDistance : ℚ
  totalDemandServed : ℚ
  routes : List RouteDict
  unassignedCustomers : List Nat

/-- VRPSolver._create_solution_dict: status is the literal "optimal", the
objective is the solver objective, total_distance sums the per-route
total_distance fields, and unassigned_customers is the literal empty list. -/
def createSolutionDict (p : Problem) (s : RoutingSolution) : SolutionDict :=
  let rs := extractRoutes p.dist p.dem s
  { status := "optimal"
    objectiveValue := solutionCost p.dist s
    numVehiclesUsed := (rs.filter (fun r => ¬ r.stops = [])).length
    totalDistance := (rs.map (fun r => r.totalDistance)).sum
    totalDemandServed := (rs.map (fun r => r.totalDemand)).sum
    routes := rs
    unassignedCustomers := [] }

/-- The non-depot stops of a stop sequence that starts and ends at the depot:
drop the leading and the trailing depot entry. -/
def interiorStops (stops : List Nat) : List Nat := stops.tail.dropLast

/-! ## Greedy baseline (VRPSolver.create_baseline_solution, lines 313-376). -/

/-- The nearest-unvisited scan: iterate over the unvisited collection keeping
the first strictly-smaller distance seen (nearest starts as None and the
distance as infinity, so the first element always replaces it). -/
def findNearest (dist : Nat → Nat → ℚ) (cur : Nat) (unvisited : List Nat) :
    Option (Nat × ℚ) :=
  unvisited.foldl
    (fun acc loc =>
      match acc with
      | none => some (loc, dist cur loc)
      | some (_, bestD) =>
          if dist cur loc < bestD then some (loc, dist cur loc) else acc)
    none

/-- State of one in-progress baseline route. -/
structure BuildState where
  added : List Nat
  totalDistance : ℚ
  totalDemand : ℚ
  remaining : List Nat
  cur : Nat
deriving DecidableEq, Repr

/-- The inner while-loop of create_baseline_solution: while unvisited remains
and the accumulated demand is below 90% of capacity, take the nearest
unvisited location; stop the route (without skipping to another node) as soon
as adding it would exceed full capacity.  Each pass removes one location, so
the loop is structural in a fuel bounded by the unvisited count. -/
def buildRoute (dist : Nat → Nat → ℚ) (dem : Nat → ℚ) (cap : ℚ) :
    Nat → Nat → ℚ → List Nat → ℚ → ℚ → List Nat → BuildState
  | 0, cur, _, added, td, tdem, unvisited =>
      { added := added, totalDistance := td, totalDemand := tdem
        remaining := unvisited, cur := cur }
  | fuel + 1, cur, curCap, added, td, tdem, unvisited =>
      if unvisited = [] ∨ ¬ curCap < cap * (9 / 10) then
        { added := added, totalDistance := td, totalDemand := tdem
          remaining := unvisited, cur := cur }
      else
        match findNearest dist cur unvisited with
        | none =>
            { added := added, totalDistance := td, totalDemand := tdem
              remaining := unvisited, cur := cur }
        | some (nearest, nd) =>
            if cap < curCap + dem nearest then
              { added := added, totalDistance := td, totalDemand := tdem
                remaining := unvisited, cur := cur }
            else
              buildRoute dist dem cap fuel nearest (curCap + dem nearest)
                (added ++ [nearest]) (td + nd) (tdem + dem nearest)
                (unvisited.erase nearest)

/-- One baseline route as recorded by the outer loop. -/
structure BaselineRoute where
  vehicleId : Nat
  stops : List Nat
  totalDistance : ℚ
  totalDemand : ℚ
deriving DecidableEq, Repr

/-- The outer while-loop of create_baseline_solution: open a route at the
depot, fill it with the inner loop, and append it (closing with the return
arc) only when it made at least one delivery; the loop keeps running while
unvisited locations remain.  When no stop could be added the state repeats
verbatim, so the Python loop diverges; the fuel makes that observable. -/
def baselineLoop (dist : Nat → Nat → ℚ) (dem : Nat → ℚ) (cap : ℚ) :
    Nat → List Nat → Nat → List BaselineRoute → List BaselineRoute × List Nat
  | 0, unvisited, _, acc => (acc, unvisited)
  | fuel + 1, unvisited, vid, acc =>
      if unvisited = [] then (acc, unvisited)
      else
        let st := buildRoute dist dem cap unvisited.length 0 0 [] 0 0 unvisited
        if st.added = [] then
          baselineLoop dist dem cap fuel st.remaining vid acc
        else
          baselineLoop dist dem cap fuel st.remaining (vid + 1)
            (acc ++ [{ vehicleId := vid
                       stops := 0 :: st.added ++ [0]
                       totalDistance := st.totalDistance + dist st.cur 0
                       totalDemand := st.totalDemand }])

/-- The baseline_stats dictionary returned by create_baseline_solution,
paired with the locations still unvisited when the fuel ran out (empty
whenever the Python loop would have terminated). -/
structure BaselineStats where
  totalDistance : ℚ
  totalDemandServed : ℚ
  numVehiclesUsed : Nat
  routes : List BaselineRoute

/-- VRPSolver.create_baseline_solution: the unvisited set starts as all
non-depot positions 1..n-1 (ascending, the CPython small-int set order). -/
def createBaselineSolution (dist : Nat → Nat → ℚ) (dem : Nat → ℚ) (cap : ℚ)
    (n : Nat) (fuel : Nat) : BaselineStats × List Nat :=
  let res := baselineLoop dist dem cap fuel (List.range' 1 (n - 1)) 0 []
  ({ totalDistance := (res.1.map (fun r => r.totalDistance)).sum
     totalDemandServed := (res.1.map (fun r => r.totalDemand)).sum
     numVehiclesUsed := res.1.length
     routes := res.1 }, res.2)

/-! ## Matrix builder (src/src/data/distance_matrix.py). -/

/-- DistanceMatrix._calculate_realistic_distance: straight-line (haversine)
distance scaled by the per-pair detour factor draw. -/
def calculateRealisticDistance (straight detour : ℚ) : ℚ := straight * detour

/-- DistanceMatrix.compute_distance_matrix: an n x n matrix of zeros whose
off-diagonal entries are filled with the realistic distance of the pair; the
straight-line distances and detour draws enter as functions of the ordered
pair.  No input validation of any kind is performed: any n (0 and 1
included) produces a matrix, and no sign or finiteness check happens. -/
def computeDistanceMatrix (n : Nat) (straight detour : Nat → Nat → ℚ) :
    List (List ℚ) :=
  (List.range n).map (fun i =>
    (List.range n).map (fun j =>
      if i = j then 0 else calculateRealisticDistance (straight i j) (detour i j)))

/-- Error taxonomy of spec section 7 (it has no counterpart in the code). -/
inductive VrpError where
  | invalidInput
deriving DecidableEq

/-- Spec-side matrix builder, following the specification words of section
4.1: fail with InvalidInput for fewer than 2 locations or any pair whose
distance is negative (non-finiteness has no rational counterpart and cannot
occur in this embedding); otherwise build the same matrix the code builds.
This definition follows the spec, not the source, and exists only to be
compared with computeDistanceMatrix. -/
def specComputeDistanceMatrix (n : Nat) (straight detour : Nat → Nat → ℚ) :
    Except VrpError (List (List ℚ)) :=
  if n < 2 then Except.error VrpError.invalidInput
  else if (List.range n).all (fun i => (List.range n).all (fun j =>
      i = j ∨ 0 ≤ calculateRealisticDistance (straight i j) (detour i j))) then
    Except.ok (computeDistanceMatrix n straight detour)
  else Except.error VrpError.invalidInput

/-- Spec-side fleet validation, following the specification words of sections
7 and 8: zero vehicles is InvalidInput, surfaced before any solving.  This
definition follows the spec, not the source, and exists only to be compared
with createDataModel. -/
def specValidateFleet (numVehicles : Nat) : Except VrpError Nat :=
  if numVehicles = 0 then Except.error VrpError.invalidInput
  else Except.ok numVehicles

/-- Spec-side per-route distance, following the specification words: the sum
of the distance-matrix entries over all consecutive pairs of the reported
stop sequence (so the final returning arc into the depot is included).  This
definition follows the spec, not the source, and exists only to be compared
with the totalDistance field extractRoute computes. -/
def consecutiveSum (dist : Nat → Nat → ℚ) : List Nat → ℚ
  | a :: b :: rest => dist a b + consecutiveSum dist (b :: rest)
  | _ => 0

/-! ## Concrete instances used by witnesses and counterexamples. -/

/-- A depot plus two customers, unit distances, zero travel times, every
window containing minute 480: feasible with and without time windows. -/
def exProblem : Problem :=
  { n := 3
    dist := fun i j => if i = j then 0 else 1
    tmat := fun _ _ => 0
    dem := fun v => if v = 0 then 0 else 10
    winLo := fun v => if v = 0 then 480 else 480
    winHi := fun v => if v = 0 then 1080 else 480
    numVehicles := 3
    cap := 80 }

/-- A solution of exProblem serving each customer with its own vehicle. -/
def exSolution : RoutingSolution := { routes := [[1], [2], []] }

/-- One customer 60 travel minutes from the depot whose window is
[09:00, 11:00] - a perfectly ordinary instance for the default config. -/
def lateWindowProblem : Problem :=
  { n := 2
    dist := fun _ _ => 1
    tmat := fun i j => if i = 0 ∧ j = 1 then 60 else 0
    dem := fun v => if v = 0 then 0 else 5
    winLo := fun v => if v = 0 then 480 else 540
    winHi := fun v => if v = 0 then 1080 else 660
    numVehicles := 3
    cap := 80 }

/-- A single customer whose demand 100 exceeds the vehicle capacity 80. -/
def oversizedDemandProblem : Problem :=
  { n := 2
    dist := fun i j => if i = j then 0 else 1
    tmat := fun _ _ => 0
    dem := fun v => if v = 0 then 0 else 100
    winLo := fun _ => 480
    winHi := fun _ => 1080
    numVehicles := 3
    cap := 80 }

/-- A single customer with asymmetric arcs: 5 out, 7 back. -/
def asymProblem : Problem :=
  { n := 2
    dist := fun i j => if i = 0 ∧ j = 1 then 5 else if i = 1 ∧ j = 0 then 7 else 0
    tmat := fun _ _ => 0
    dem := fun v => if v = 0 then 0 else 10
    winLo := fun v => if v = 0 then 480 else 480
    winHi := fun v => if v = 0 then 1080 else 480
    numVehicles := 3
    cap := 80 }

/-- A solution of asymProblem: the single customer on vehicle 0. -/
def asymSolution : RoutingSolution := { routes := [[1], [], []] }

/-- Two customers; the time matrix vanishes except on the arcs depot to 2 and
2 to 1, and every customer window is exactly minute 480, so the only
time-feasible covering is the single route depot 1 2 depot; the distance
matrix prices exactly that route at 10 per arc and prices the greedy order
(2 first, then 1) at 1 per arc. -/
def twForcedProblem : Problem :=
  { n := 3
    dist := fun i j =>
      if i = 0 ∧ j = 1 then 10 else if i = 1 ∧ j = 2 then 10
      else if i = 2 ∧ j = 0 then 10 else if i = 0 ∧ j = 2 then 1
      else if i = 2 ∧ j = 1 then 1 else if i = 1 ∧ j = 0 then 1 else 0
    tmat := fun i j => if (i = 0 ∧ j = 2) ∨ (i = 2 ∧ j = 1) then 1 else 0
    dem := fun v => if v = 0 then 0 else 1
    winLo := fun v => if v = 0 then 480 else 480
    winHi := fun v => if v = 0 then 1080 else 480
    numVehicles := 3
    cap := 80 }

/-- The unique time-feasible covering of twForcedProblem. -/
def twForcedSolution : RoutingSolution := { routes := [[1, 2], [], []] }

/-- Cumulative arrival times along a node sequence: starting from cumul t at
node cur, each transition adds the time-matrix entry and the corresponding
slack (waiting time); the list records the cumul at each visited node. -/
def arrivalList (tmat : Nat → Nat → ℚ) :
    Nat → ℚ → List Nat → List ℚ → List ℚ
  | cur, t, v :: rest, s :: ss =>
      (t + tmat cur v + s) :: arrivalList tmat v (t + tmat cur v + s) rest ss
  | _, _, _, _ => []

/-- A distance function putting two unvisited locations at the same distance
from everywhere: a pure tie for the nearest-neighbour scan. -/
def tieDist : Nat → Nat → ℚ := fun _ _ => 5

/-- Two customers with all distances zero: every assignment costs nothing. -/
def zeroProblem : Problem :=
  { n := 3
    dist := fun _ _ => 0
    tmat := fun _ _ => 0
    dem := fun v => if v = 0 then 0 else 10
    winLo := fun _ => 480
    winHi := fun v => if v = 0 then 1080 else 480
    numVehicles := 3
    cap := 80 }

/-- A solution of zeroProblem serving both customers on vehicle 0. -/
def zeroSolution : RoutingSolution := { routes := [[1, 2], [], []] }

/-! ## C9: zero vehicles supplied. -/

/-- C9 counterexample: with zero vehicles supplied the code performs no
validation at all - _create_data_model happily builds a data model with
num_vehicles = 0 and an empty capacity list, while the specification's
InvalidInput check would reject the fleet before solving. -/
theorem zero_vehicles_not_rejected_cex :
    (createDataModel defaultDelivery defaultOptimization 6 [] [] []
      (some 0)).numVehicles = 0 ∧
    (createDataModel defaultDelivery defaultOptimization 6 [] [] []
      (some 0)).vehicleCapacities = [] ∧
    specValidateFleet 0 = Except.error VrpError.invalidInput :=
  ⟨rfl, rfl, rfl⟩

/-- C9 amended: a zero vehicle count is passed through unvalidated - the data
model is built with num_vehicles = 0 and an empty vehicle-capacity list and
construction of the routing model is attempted; no InvalidInput error exists
in the code. -/
theorem zero_vehicles_passthrough (cfg : DeliveryConfig)
    (opt : OptimizationConfig) (n : Nat) (dm tm : List (List ℚ))
    (ds : List ℚ) :
    (createDataModel cfg opt n dm tm ds (some 0)).numVehicles = 0 ∧
    (createDataModel cfg opt n dm tm ds (some 0)).vehicleCapacities = [] :=
  ⟨rfl, rfl⟩

/-! ## C10: matrix builder validation. -/

/-- C10 counterexample: for a single location the builder returns the 1 x 1
zero matrix instead of failing, while the specification's builder rejects
fewer than 2 locations with InvalidInput. -/
theorem single_location_matrix_cex :
    computeDistanceMatrix 1 (fun _ _ => 1) (fun _ _ => 1) = [[0]] ∧
    specComputeDistanceMatrix 1 (fun _ _ => 1) (fun _ _ => 1)
      = Except.error VrpError.invalidInput :=
  ⟨rfl, rfl⟩

/-- C10 amended: the matrix builder performs no input validation - for every
location count (0 and 1 included) and any straight-line distances and detour
draws it returns an n x n matrix with zero diagonal, and no negativity or
finiteness check is ever made. -/
theorem matrix_builder_no_validation (n : Nat)
    (straight detour : Nat → Nat → ℚ) :
    (computeDistanceMatrix n straight detour).length = n ∧
    (∀ row ∈ computeDistanceMatrix n straight detour, row.length = n) ∧
    (∀ i, i < n →
      ((computeDistanceMatrix n straight detour).getD i []).getD i 1 = 0) := by
  refine ⟨by simp [computeDistanceMatrix], ?_, ?_⟩
  · intro row hrow
    simp only [computeDistanceMatrix, List.mem_map] at hrow
    obtain ⟨i, _, rfl⟩ := hrow
    simp
  · intro i hi
    simp [computeDistanceMatrix, List.getD_eq_getElem?_getD, List.getElem?_map,
      List.getElem?_range, hi]

/-- Witness for the amended C10 at n = 1. -/
theorem matrix_builder_no_validation_witness :
    (computeDistanceMatrix 1 (fun _ _ => 1) (fun _ _ => 1)).length = 1 ∧
    ((computeDistanceMatrix 1 (fun _ _ => 1) (fun _ _ => 1)).getD 0 []).getD
      0 1 = 0 :=
  ⟨(matrix_builder_no_validation 1 (fun _ _ => 1) (fun _ _ => 1)).1,
   (matrix_builder_no_validation 1 (fun _ _ => 1) (fun _ _ => 1)).2.2 0
     (by decide)⟩

/-! ## C6: reported per-route distance. -/

/-- C6 counterexample: on a single-customer solution with outbound distance 5
and return distance 7 the extracted route reports stops [0, 1, 0] but
total_distance 5: the final arc returning to the depot is skipped, so the
reported distance differs from the consecutive-pairs sum 12 the claim
states. -/
theorem route_distance_drops_return_arc_cex :
    extractRoutes asymProblem.dist asymProblem.dem asymSolution
      = [{ vehicleId := 0, stops := [0, 1, 0], totalDistance := 5,
           totalDemand := 10 }] ∧
    ¬ (extractRoute asymProblem.dist asymProblem.dem 0 [1]).totalDistance
      = consecutiveSum asymProblem.dist
          (extractRoute asymProblem.dist asymProblem.dem 0 [1]).stops := by
  constructor
  · simp [extractRoutes, extractRoutesAux, asymSolution, extractRoute,
      partialPathCost, asymProblem]
  · intro h
    simp only [extractRoute, asymProblem, consecutiveSum, partialPathCost] at h
    norm_num at h

/-- partialPathCost along cur :: nodes is the consecutive-pairs sum of that
exact sequence (no return arc appended). -/
theorem consecutiveSum_cons_eq_partialPathCost (dist : Nat → Nat → ℚ) :
    ∀ (nodes : List Nat) (cur : Nat),
      consecutiveSum dist (cur :: nodes) = partialPathCost dist cur nodes := by
  intro nodes
  induction nodes with
  | nil => intro cur; simp [consecutiveSum, partialPathCost]
  | cons v rest ih =>
      intro cur
      simp [consecutiveSum, partialPathCost, ih v]

/-- C6 amended: every extracted route's stop sequence begins and ends at the
depot, and its reported total_distance equals the sum of distance-matrix
entries over consecutive pairs of the stop sequence with the final
return-to-depot arc excluded (equivalently, over the sequence without its
trailing depot entry). -/
theorem route_distance_excludes_return_arc (dist : Nat → Nat → ℚ)
    (dem : Nat → ℚ) (s : RoutingSolution) :
    ∀ r ∈ extractRoutes dist dem s,
      r.stops.head? = some 0 ∧ r.stops.getLast? = some 0 ∧
      r.totalDistance = consecutiveSum dist r.stops.dropLast := by
  have key : ∀ (routes : List (List Nat)) (vid : Nat),
      ∀ r ∈ extractRoutesAux dist dem vid routes,
        r.stops.head? = some 0 ∧ r.stops.getLast? = some 0 ∧
        r.totalDistance = consecutiveSum dist r.stops.dropLast := by
    intro routes
    induction routes with
    | nil => intro vid r hr; simp [extractRoutesAux] at hr
    | cons nodes rest ih =>
        intro vid r hr
        by_cases hnil : nodes = []
        · simp only [extractRoutesAux, if_pos hnil] at hr
          exact ih (vid + 1) r hr
        · simp only [extractRoutesAux, if_neg hnil, List.mem_cons] at hr
          rcases hr with hr | hr
          · subst hr
            refine ⟨rfl, ?_, ?_⟩
            · show ((0 :: nodes) ++ [0]).getLast? = some 0
              exact List.getLast?_concat _
            · have hdrop : ((0 :: nodes) ++ [0]).dropLast = 0 :: nodes :=
                List.dropLast_concat
              simp only [extractRoute, hdrop]
              exact (consecutiveSum_cons_eq_partialPathCost dist nodes 0).symm
          · exact ih (vid + 1) r hr
  intro r hr
  exact key s.routes 0 r hr

/-- Witness for the amended C6 on the concrete single-customer solution. -/
theorem route_distance_excludes_return_arc_witness :
    (extractRoute asymProblem.dist asymProblem.dem 0 [1]).stops.head?
      = some 0 ∧
    (extractRoute asymProblem.dist asymProblem.dem 0 [1]).stops.getLast?
      = some 0 ∧
    (extractRoute asymProblem.dist asymProblem.dem 0 [1]).totalDistance
      = consecutiveSum asymProblem.dist
          (extractRoute asymProblem.dist asymProblem.dem 0 [1]).stops.dropLast :=
  route_distance_excludes_return_arc asymProblem.dist asymProblem.dem
    asymSolution (extractRoute asymProblem.dist asymProblem.dem 0 [1])
    (by simp [extractRoutes, extractRoutesAux, asymSolution])

/-! ## C1: every non-depot location served exactly once. -/

/-- Membership inversion for the extraction loop: every returned route dict
comes from one non-empty vehicle route. -/
theorem mem_extractRoutesAux (dist : Nat → Nat → ℚ) (dem : Nat → ℚ) :
    ∀ (routes : List (List Nat)) (vid : Nat) (r : RouteDict),
      r ∈ extractRoutesAux dist dem vid routes →
      ∃ nodes vid2, nodes ∈ routes ∧ ¬ nodes = [] ∧
        r = extractRoute dist dem vid2 nodes := by
  intro routes
  induction routes with
  | nil => intro vid r hr; simp [extractRoutesAux] at hr
  | cons nodes rest ih =>
      intro vid r hr
      by_cases hnil : nodes = []
      · simp only [extractRoutesAux, if_pos hnil] at hr
        obtain ⟨ns, v2, hmem, hne, heq⟩ := ih (vid + 1) r hr
        exact ⟨ns, v2, List.mem_cons_of_mem _ hmem, hne, heq⟩
      · simp only [extractRoutesAux, if_neg hnil, List.mem_cons] at hr
        rcases hr with hr | hr
        · exact ⟨nodes, vid, List.mem_cons_self _ _, hnil, hr⟩
        · obtain ⟨ns, v2, hmem, hne, heq⟩ := ih (vid + 1) r hr
          exact ⟨ns, v2, List.mem_cons_of_mem _ hmem, hne, heq⟩

/-- For a non-depot index, occurrences in an extracted stop list are exactly
the occurrences in the vehicle's node sequence (the depot entries padded
around it never match). -/
theorem count_extractRoute_stops (dist : Nat → Nat → ℚ) (dem : Nat → ℚ)
    (vid : Nat) (nodes : List Nat) (j : Nat) (hj : ¬ j = 0) :
    (extractRoute dist dem vid nodes).stops.count j = nodes.count j := by
  simp [extractRoute, List.count_append, List.count_cons, List.count_singleton,
    Ne.symm hj, hj]

/-- Summed occurrence counts are preserved by extraction: dropped routes are
empty and contribute nothing. -/
theorem count_extractRoutesAux (dist : Nat → Nat → ℚ) (dem : Nat → ℚ)
    (j : Nat) (hj : ¬ j = 0) :
    ∀ (routes : List (List Nat)) (vid : Nat),
      ((extractRoutesAux dist dem vid routes).map
        (fun r => r.stops.count j)).sum
        = (routes.map (fun r => r.count j)).sum := by
  intro routes
  induction routes with
  | nil => intro vid; simp [extractRoutesAux]
  | cons nodes rest ih =>
      intro vid
      by_cases hnil : nodes = []
      · simp only [extractRoutesAux]
        rw [if_pos hnil, ih (vid + 1), hnil]
        simp
      · simp only [extractRoutesAux, if_neg hnil, List.map_cons, List.sum_cons]
        rw [ih (vid + 1), count_extractRoute_stops dist dem vid nodes j hj]

/-- C1: whenever the solver returns a solution (reported with status
"optimal"), every non-depot location index appears in exactly one route of
the returned route list - counted over all stop sequences it occurs exactly
once - and the unassigned_customers list is the empty list. -/
theorem optimal_solution_serves_each_location_once (p : Problem)
    (cfg : DeliveryConfig) (tw : Bool) (s : RoutingSolution)
    (hfeas : Feasible p cfg tw s) :
    (∀ j, 0 < j → j < p.n →
      ((createSolutionDict p s).routes.map (fun r => r.stops.count j)).sum
        = 1) ∧
    (createSolutionDict p s).unassignedCustomers = [] := by
  obtain ⟨⟨_, _, hcount⟩, _, _⟩ := hfeas
  refine ⟨?_, rfl⟩
  intro j hj1 hj2
  have hj0 : ¬ j = 0 := Nat.pos_iff_ne_zero.mp hj1
  have hroutes : (createSolutionDict p s).routes
      = extractRoutesAux p.dist p.dem 0 s.routes := rfl
  rw [hroutes, count_extractRoutesAux p.dist p.dem j hj0 s.routes 0]
  exact hcount j hj1 hj2

/-- The concrete instance exProblem with exSolution is feasible with or
without time windows. -/
theorem exProblem_feasible (tw : Bool) :
    Feasible exProblem defaultDelivery tw exSolution := by
  refine ⟨⟨rfl, by decide, ?_⟩, ?_, ?_⟩
  · intro j hj1 hj2
    simp only [exProblem] at hj2
    interval_cases j <;> decide
  · intro r hr
    simp only [exSolution, List.mem_cons, List.not_mem_nil, or_false] at hr
    rcases hr with rfl | rfl | rfl <;>
      simp [CapacityOk, exProblem] <;> norm_num
  · intro _ r hr
    simp only [exSolution, List.mem_cons, List.not_mem_nil, or_false] at hr
    rcases hr with rfl | rfl | rfl
    · refine ⟨480, by norm_num [exProblem], by norm_num [exProblem],
        by norm_num, by norm_num [horizon, defaultDelivery], ?_⟩
      rw [TimeOk]
      refine ⟨0, by norm_num, by norm_num, by norm_num [exProblem],
        by norm_num [exProblem], by norm_num [exProblem],
        by norm_num [exProblem, horizon, defaultDelivery], ?_⟩
      rw [TimeOk]
      exact ⟨0, by norm_num, by norm_num, by norm_num [exProblem],
        by norm_num [exProblem, horizon, defaultDelivery]⟩
    · refine ⟨480, by norm_num [exProblem], by norm_num [exProblem],
        by norm_num, by norm_num [horizon, defaultDelivery], ?_⟩
      rw [TimeOk]
      refine ⟨0, by norm_num, by norm_num, by norm_num [exProblem],
        by norm_num [exProblem], by norm_num [exProblem],
        by norm_num [exProblem, horizon, defaultDelivery], ?_⟩
      rw [TimeOk]
      exact ⟨0, by norm_num, by norm_num, by norm_num [exProblem],
        by norm_num [exProblem, horizon, defaultDelivery]⟩
    · refine ⟨480, by norm_num [exProblem], by norm_num [exProblem],
        by norm_num, by norm_num [horizon, defaultDelivery], ?_⟩
      rw [TimeOk]
      exact ⟨0, by norm_num, by norm_num, by norm_num [exProblem],
        by norm_num [exProblem, horizon, defaultDelivery]⟩

/-- Witness for C1 at the concrete two-customer instance. -/
theorem optimal_solution_serves_each_location_once_witness :
    Feasible exProblem defaultDelivery false exSolution ∧
    ((createSolutionDict exProblem exSolution).routes.map
      (fun r => r.stops.count 1)).sum = 1 ∧
    (createSolutionDict exProblem exSolution).unassignedCustomers = [] :=
  ⟨exProblem_feasible false,
   (optimal_solution_serves_each_location_once exProblem defaultDelivery false
      exSolution (exProblem_feasible false)).1 1 (by decide) (by decide),
   (optimal_solution_serves_each_location_once exProblem defaultDelivery false
      exSolution (exProblem_feasible false)).2⟩

/-! ## C3: prefix demand never exceeds capacity. -/

/-- The capacity dimension's cumuls bound every prefix sum of demands. -/
theorem capacityOk_prefix (dem : Nat → ℚ) (cap : ℚ) :
    ∀ (nodes : List Nat) (acc : ℚ), CapacityOk dem cap acc nodes →
      acc ≤ cap → ∀ k, acc + ((nodes.take k).map dem).sum ≤ cap := by
  intro nodes
  induction nodes with
  | nil => intro acc _ hacc k; simpa using hacc
  | cons v rest ih =>
      intro acc hok hacc k
      obtain ⟨hstep, hrest⟩ := hok
      match k with
      | 0 => simpa using hacc
      | k + 1 =>
          have := ih (acc + dem v) hrest hstep k
          calc acc + (((v :: rest).take (k + 1)).map dem).sum
              = (acc + dem v) + ((rest.take k).map dem).sum := by
                simp [List.take_succ_cons]; ring
            _ ≤ cap := this

/-- Prefix-demand bound carried through the inner greedy loop: the running
capacity equals the demand of the stops added so far, every prefix of the
added stops fits, and both facts persist to the returned state. -/
theorem buildRoute_prefix (dist : Nat → Nat → ℚ) (dem : Nat → ℚ) (cap : ℚ) :
    ∀ (fuel : Nat) (cur : Nat) (curCap : ℚ) (added : List Nat) (td tdem : ℚ)
      (unvisited : List Nat),
      curCap = (added.map dem).sum →
      (∀ k, ((added.take k).map dem).sum ≤ cap) →
      ∀ k, (((buildRoute dist dem cap fuel cur curCap added td tdem
        unvisited).added.take k).map dem).sum ≤ cap := by
  intro fuel
  induction fuel with
  | zero => intro cur curCap added td tdem unvisited _ hpre k; exact hpre k
  | succ fuel ih =>
      intro cur curCap added td tdem unvisited hcap hpre k
      rw [buildRoute]
      by_cases hguard : unvisited = [] ∨ ¬ curCap < cap * (9 / 10)
      · rw [if_pos hguard]; exact hpre k
      · rw [if_neg hguard]
        match hfind : findNearest dist cur unvisited with
        | none => exact hpre k
        | some (nearest, nd) =>
            simp only
            by_cases hover : cap < curCap + dem nearest
            · rw [if_pos hover]; exact hpre k
            · rw [if_neg hover]
              refine ih nearest (curCap + dem nearest) (added ++ [nearest])
                (td + nd) (tdem + dem nearest) (unvisited.erase nearest)
                (by simp [hcap]) ?_ k
              intro m
              rw [List.take_append_eq_append_take, List.map_append,
                List.sum_append]
              match hm : m - added.length with
              | 0 => simpa using hpre m
              | mm + 1 =>
                  have hlen : added.length ≤ m := by omega
                  rw [List.take_of_length_le hlen]
                  have htake : ([nearest].take (mm + 1)).map dem
                      = [dem nearest] := by simp
                  rw [htake]
                  simp only [List.sum_cons, List.sum_nil, add_zero]
                  rw [← hcap]
                  exact le_of_not_lt hover

/-- Prefix-demand bound for every baseline route the outer loop records. -/
theorem baselineLoop_prefix (dist : Nat → Nat → ℚ) (dem : Nat → ℚ) (cap : ℚ)
    (hcap : 0 ≤ cap) :
    ∀ (fuel : Nat) (unvisited : List Nat) (vid : Nat)
      (acc : List BaselineRoute),
      (∀ r ∈ acc, ∀ k,
        (((interiorStops r.stops).take k).map dem).sum ≤ cap) →
      ∀ r ∈ (baselineLoop dist dem cap fuel unvisited vid acc).1, ∀ k,
        (((interiorStops r.stops).take k).map dem).sum ≤ cap := by
  intro fuel
  induction fuel with
  | zero => intro unvisited vid acc hacc r hr; exact hacc r hr
  | succ fuel ih =>
      intro unvisited vid acc hacc r hr
      rw [baselineLoop] at hr
      by_cases hempty : unvisited = []
      · rw [if_pos hempty] at hr; exact hacc r hr
      · rw [if_neg hempty] at hr
        set st := buildRoute dist dem cap unvisited.length 0 0 [] 0 0 unvisited
          with hst
        by_cases hadded : st.added = []
        · rw [if_pos hadded] at hr
          exact ih st.remaining vid acc hacc r hr
        · rw [if_neg hadded] at hr
          refine ih st.remaining (vid + 1) _ ?_ r hr
          intro r2 hr2 k
          rcases List.mem_append.mp hr2 with h2 | h2
          · exact hacc r2 h2 k
          · rw [List.mem_singleton] at h2
            subst h2
            have hint : interiorStops ((0 :: st.added) ++ [0]) = st.added := by
              simp only [interiorStops, List.cons_append, List.tail_cons]
              exact List.dropLast_concat
            show (List.map dem (List.take k
              (interiorStops ((0 :: st.added) ++ [0])))).sum ≤ cap
            rw [hint]
            exact buildRoute_prefix dist dem cap unvisited.length 0 0 [] 0 0
              unvisited (by simp) (by intro m; simpa using hcap) k

/-- C3: both for routes of a returned solver solution and for every route the
greedy baseline constructs, the accumulated demand over every prefix of the
non-depot stop sequence stays at or below the vehicle capacity. -/
theorem capacity_prefix_bound (p : Problem) (cfg : DeliveryConfig) (tw : Bool)
    (s : RoutingSolution) (fuel : Nat) (hfeas : Feasible p cfg tw s)
    (hcap : 0 ≤ p.cap) :
    (∀ r ∈ (createSolutionDict p s).routes, ∀ k,
      (((interiorStops r.stops).take k).map p.dem).sum ≤ p.cap) ∧
    (∀ r ∈ (createBaselineSolution p.dist p.dem p.cap p.n fuel).1.routes, ∀ k,
      (((interiorStops r.stops).take k).map p.dem).sum ≤ p.cap) := by
  obtain ⟨_, hcaps, _⟩ := hfeas
  constructor
  · intro r hr k
    have hr2 : r ∈ extractRoutesAux p.dist p.dem 0 s.routes := hr
    obtain ⟨nodes, vid2, hmem, hne, rfl⟩ :=
      mem_extractRoutesAux p.dist p.dem s.routes 0 r hr2
    have hint : interiorStops (extractRoute p.dist p.dem vid2 nodes).stops
        = nodes := by
      simp only [extractRoute, interiorStops, List.cons_append, List.tail_cons]
      exact List.dropLast_concat
    rw [hint]
    have := capacityOk_prefix p.dem p.cap nodes 0 (hcaps nodes hmem) hcap k
    simpa using this
  · intro r hr k
    exact baselineLoop_prefix p.dist p.dem p.cap hcap fuel
      (List.range' 1 (p.n - 1)) 0 [] (by intro r2 hr2; simp at hr2) r hr k

/-- Witness for C3 at the concrete two-customer instance. -/
theorem capacity_prefix_bound_witness :
    Feasible exProblem defaultDelivery false exSolution ∧ (0 : ℚ) ≤ 80 ∧
    (∀ r ∈ (createSolutionDict exProblem exSolution).routes, ∀ k,
      (((interiorStops r.stops).take k).map exProblem.dem).sum
        ≤ exProblem.cap) :=
  ⟨exProblem_feasible false, by norm_num,
   (capacity_prefix_bound exProblem defaultDelivery false exSolution 1
      (exProblem_feasible false) (by norm_num [exProblem])).1⟩

/-! ## C8: nearest-neighbour tie-breaking and determinism. -/

/-- Behaviour of the nearest-neighbour fold from a running best whose stored
distance is genuine: the result is the running best or a strict improvement
from the remainder, its distance is the minimum seen, and on ties the earlier
(hence, in a sorted list, lower-id) location is kept - the strict
less-than comparison never replaces an equal distance. -/
theorem findNearest_go (dist : Nat → Nat → ℚ) (cur : Nat) :
    ∀ (l : List Nat) (b : Nat) (c : Nat) (cd : ℚ),
      List.Sorted (fun x y : Nat => x < y) (b :: l) →
      List.foldl
        (fun acc loc =>
          match acc with
          | none => some (loc, dist cur loc)
          | some (_, bestD) =>
              if dist cur loc < bestD then some (loc, dist cur loc) else acc)
        (some (b, dist cur b)) l = some (c, cd) →
      cd = dist cur c ∧ (c = b ∨ c ∈ l) ∧ cd ≤ dist cur b ∧
      (∀ x ∈ l, cd ≤ dist cur x) ∧
      (∀ x ∈ l, dist cur x = cd → c ≤ x) ∧ (dist cur b = cd → c = b) := by
  intro l
  induction l with
  | nil =>
      intro b c cd _ hfold
      simp only [List.foldl_nil, Option.some.injEq, Prod.mk.injEq] at hfold
      obtain ⟨rfl, rfl⟩ := hfold
      exact ⟨rfl, Or.inl rfl, le_refl _, by simp, by simp, fun _ => rfl⟩
  | cons v rest ih =>
      intro b c cd hsorted hfold
      have hbv : b < v := (List.sorted_cons.mp hsorted).1 v (by simp)
      have hsub : List.Sorted (fun x y : Nat => x < y) (v :: rest) :=
        (List.sorted_cons.mp hsorted).2
      rw [List.foldl_cons] at hfold
      dsimp only at hfold
      by_cases hlt : dist cur v < dist cur b
      · rw [if_pos hlt] at hfold
        obtain ⟨h1, h2, h3, h4, h5, h6⟩ := ih v c cd hsub hfold
        refine ⟨h1, Or.inr (List.mem_cons.mpr h2), ?_, ?_, ?_, ?_⟩
        · exact h3.trans hlt.le
        · intro x hx
          rcases List.mem_cons.mp hx with rfl | hx
          · exact h3
          · exact h4 x hx
        · intro x hx hex
          rcases List.mem_cons.mp hx with rfl | hx
          · exact (h6 hex) ▸ le_refl _
          · exact h5 x hx hex
        · intro heq
          exact absurd (heq ▸ lt_of_le_of_lt h3 hlt) (lt_irrefl _)
      · rw [if_neg hlt] at hfold
        have hble : dist cur b ≤ dist cur v := le_of_not_lt hlt
        have hsorted2 : List.Sorted (fun x y : Nat => x < y) (b :: rest) := by
          refine List.Pairwise.sublist ?_ hsorted
          exact List.cons_sublist_cons.mpr (List.sublist_cons_self v rest)
        obtain ⟨h1, h2, h3, h4, h5, h6⟩ := ih b c cd hsorted2 hfold
        refine ⟨h1, h2.imp id (List.mem_cons_of_mem v), h3, ?_, ?_, h6⟩
        · intro x hx
          rcases List.mem_cons.mp hx with rfl | hx
          · exact h3.trans hble
          · exact h4 x hx
        · intro x hx hex
          rcases List.mem_cons.mp hx with rfl | hx
          · have hbd : dist cur b = cd := le_antisymm (hex ▸ hble) (hex ▸ h3)
            exact (h6 hbd) ▸ hbv.le
          · exact h5 x hx hex

/-- C8: when the unvisited collection is scanned in ascending identifier
order (the CPython small-int set order the code relies on), the
nearest-neighbour selection returns an unvisited location of minimum
distance, and among all minimisers it is the one with the lowest identifier;
and the greedy constructor, being a pure function of its input, yields
identical route lists on two runs over identical input. -/
theorem greedy_tiebreak_lowest_id (dist : Nat → Nat → ℚ) (dem : Nat → ℚ)
    (cap : ℚ) (n fuel cur : Nat) (unvisited : List Nat) (c : Nat) (cd : ℚ)
    (hsorted : List.Sorted (fun x y : Nat => x < y) unvisited)
    (hfind : findNearest dist cur unvisited = some (c, cd)) :
    (c ∈ unvisited ∧ cd = dist cur c ∧
     (∀ x ∈ unvisited, cd ≤ dist cur x) ∧
     (∀ x ∈ unvisited, dist cur x = cd → c ≤ x)) ∧
    createBaselineSolution dist dem cap n fuel
      = createBaselineSolution dist dem cap n fuel := by
  refine ⟨?_, rfl⟩
  match unvisited, hsorted, hfind with
  | [], _, hfind => simp [findNearest] at hfind
  | v :: rest, hsorted, hfind =>
      rw [findNearest, List.foldl_cons] at hfind
      obtain ⟨h1, h2, h3, h4, h5, h6⟩ := findNearest_go dist cur rest v c cd
        hsorted hfind
      refine ⟨?_, h1, ?_, ?_⟩
      · exact List.mem_cons.mpr h2
      · intro x hx
        rcases List.mem_cons.mp hx with rfl | hx
        · exact h3
        · exact h4 x hx
      · intro x hx hex
        rcases List.mem_cons.mp hx with rfl | hx
        · have hbd : dist cur x = cd := hex
          have := h6 hbd
          subst this
          exact le_refl _
        · exact h5 x hx hex

/-- Witness for C8: two locations at the tied distance 5; the scan picks
location 1, the lower identifier. -/
theorem greedy_tiebreak_lowest_id_witness :
    ((1 ∈ [1, 2] ∧ (5 : ℚ) = tieDist 0 1 ∧
      (∀ x ∈ [1, 2], (5 : ℚ) ≤ tieDist 0 x) ∧
      (∀ x ∈ [1, 2], tieDist 0 x = 5 → 1 ≤ x)) ∧
     createBaselineSolution tieDist (fun _ => 1) 80 3 5
       = createBaselineSolution tieDist (fun _ => 1) 80 3 5) :=
  greedy_tiebreak_lowest_id tieDist (fun _ => 1) 80 3 5 0 [1, 2] 1 5
    (by decide) (by decide)

/-! ## C2: time windows respected in optimal solutions. -/

/-- A time-feasible node sequence admits explicit slack choices whose induced
cumulative arrival times pair each visited node with an arrival inside its
window. -/
theorem timeOk_arrivals (tmat : Nat → Nat → ℚ) (winLo winHi : Nat → ℚ)
    (H : ℚ) :
    ∀ (nodes : List Nat) (cur : Nat) (t : ℚ),
      TimeOk tmat winLo winHi H cur t nodes →
      ∃ slacks, slacks.length = nodes.length ∧
        (∀ x ∈ slacks, 0 ≤ x ∧ x ≤ 30) ∧
        List.Forall₂ (fun v a => winLo v ≤ a ∧ a ≤ winHi v) nodes
          (arrivalList tmat cur t nodes slacks) := by
  intro nodes
  induction nodes with
  | nil =>
      intro cur t _
      exact ⟨[], rfl, by simp, by simp [arrivalList]⟩
  | cons v rest ih =>
      intro cur t hok
      obtain ⟨s, hs0, hs30, hlo, hhi, _, _, hrest⟩ := hok
      obtain ⟨ss, hlen, hbnd, hfa⟩ := ih v (t + tmat cur v + s) hrest
      refine ⟨s :: ss, by simp [hlen], ?_, ?_⟩
      · intro x hx
        rcases List.mem_cons.mp hx with rfl | hx
        · exact ⟨hs0, hs30⟩
        · exact hbnd x hx
      · rw [arrivalList]
        exact List.Forall₂.cons ⟨hlo, hhi⟩ hfa

/-- C2: for a solve with time windows enabled, any returned (status
"optimal") solution admits, for every extracted route, a depot departure
within the depot window and waiting times in [0, 30] whose induced
cumulative arrival times put every non-depot stop inside its
[window_start, window_end] interval. -/
theorem optimal_time_windows_respected (p : Problem) (cfg : DeliveryConfig)
    (s : RoutingSolution) (hfeas : Feasible p cfg true s) :
    ∀ r ∈ (createSolutionDict p s).routes, ∃ t0 slacks,
      p.winLo 0 ≤ t0 ∧ t0 ≤ p.winHi 0 ∧
      (∀ x ∈ slacks, 0 ≤ x ∧ x ≤ 30) ∧
      List.Forall₂ (fun v a => p.winLo v ≤ a ∧ a ≤ p.winHi v)
        (interiorStops r.stops)
        (arrivalList p.tmat 0 t0 (interiorStops r.stops) slacks) := by
  obtain ⟨_, _, htw⟩ := hfeas
  intro r hr
  have hr2 : r ∈ extractRoutesAux p.dist p.dem 0 s.routes := hr
  obtain ⟨nodes, vid2, hmem, _, rfl⟩ :=
    mem_extractRoutesAux p.dist p.dem s.routes 0 r hr2
  have hint : interiorStops (extractRoute p.dist p.dem vid2 nodes).stops
      = nodes := by
    simp only [extractRoute, interiorStops, List.cons_append, List.tail_cons]
    exact List.dropLast_concat
  obtain ⟨t0, hlo0, hhi0, _, _, htime⟩ := htw rfl nodes hmem
  obtain ⟨slacks, _, hbnd, hfa⟩ :=
    timeOk_arrivals p.tmat p.winLo p.winHi (horizon cfg) nodes 0 t0 htime
  exact ⟨t0, slacks, hlo0, hhi0, hbnd, by rw [hint]; exact hfa⟩

/-- Witness for C2 at the concrete two-customer instance, on vehicle 0's
extracted route. -/
theorem optimal_time_windows_respected_witness :
    Feasible exProblem defaultDelivery true exSolution ∧
    (∃ t0 slacks,
      exProblem.winLo 0 ≤ t0 ∧ t0 ≤ exProblem.winHi 0 ∧
      (∀ x ∈ slacks, 0 ≤ x ∧ x ≤ 30) ∧
      List.Forall₂
        (fun v a => exProblem.winLo v ≤ a ∧ a ≤ exProblem.winHi v)
        (interiorStops (extractRoute exProblem.dist exProblem.dem 0 [1]).stops)
        (arrivalList exProblem.tmat 0 t0
          (interiorStops
            (extractRoute exProblem.dist exProblem.dem 0 [1]).stops)
          slacks)) :=
  ⟨exProblem_feasible true,
   optimal_time_windows_respected exProblem defaultDelivery exSolution
     (exProblem_feasible true)
     (extractRoute exProblem.dist exProblem.dem 0 [1])
     (by simp [createSolutionDict, extractRoutes, extractRoutesAux,
        exSolution])⟩

/-! ## C4: the time dimension bound. -/

/-- Every node visited in a time-feasible chain gets an arrival inside its
window that also respects the horizon cap. -/
theorem timeOk_mem_bounds (tmat : Nat → Nat → ℚ) (winLo winHi : Nat → ℚ)
    (H : ℚ) :
    ∀ (nodes : List Nat) (cur : Nat) (t : ℚ),
      TimeOk tmat winLo winHi H cur t nodes →
      ∀ v ∈ nodes, ∃ a, winLo v ≤ a ∧ a ≤ winHi v ∧ a ≤ H := by
  intro nodes
  induction nodes with
  | nil => intro cur t _ v hv; simp at hv
  | cons w rest ih =>
      intro cur t hok v hv
      obtain ⟨s, _, _, hlo, hhi, _, hH, hrest⟩ := hok
      rcases List.mem_cons.mp hv with rfl | hv
      · exact ⟨t + tmat cur v + s, hlo, hhi, hH⟩
      · exact ih w (t + tmat cur w + s) hrest v hv

/-- C4: the code passes max_route_duration_hours*60 = 480 to AddDimension as
the cumul capacity, capping every cumulative time value - which is measured
in minutes since midnight - at 480, while simultaneously constraining the
depot start cumul to the depot window [480, 1080].  The two registered
constraints are mutually inconsistent for any customer whose window opens
after 08:00: the perfectly schedulable one-customer instance
lateWindowProblem (60 minutes from the depot, window [09:00, 11:00]) admits
no feasible solution at all, so the dimension does not implement an
elapsed-duration bound with free depot departure. -/
theorem time_dimension_horizon_contradiction :
    ¬ ∃ s, Feasible lateWindowProblem defaultDelivery true s := by
  rintro ⟨s, ⟨_, _, hcount⟩, _, htw⟩
  have h1 := hcount 1 (by decide) (by decide)
  have hex : ∃ r ∈ s.routes, 1 ∈ r := by
    by_contra hno
    push_neg at hno
    have hz : (s.routes.map (fun r => r.count 1)).sum = 0 := by
      apply List.sum_eq_zero
      intro x hx
      obtain ⟨r, hr, rfl⟩ := List.mem_map.mp hx
      exact List.count_eq_zero.mpr (hno r hr)
    rw [hz] at h1
    exact absurd h1 (by decide)
  obtain ⟨r, hr, hmem⟩ := hex
  obtain ⟨t0, _, _, _, _, htime⟩ := htw rfl r hr
  obtain ⟨a, hlo, _, hH⟩ := timeOk_mem_bounds lateWindowProblem.tmat
    lateWindowProblem.winLo lateWindowProblem.winHi
    (horizon defaultDelivery) r 0 t0 htime 1 hmem
  have h540 : (540 : ℚ) ≤ a := by
    simpa [lateWindowProblem] using hlo
  have hhor : horizon defaultDelivery = 480 := by
    norm_num [horizon, defaultDelivery]
  rw [hhor] at hH
  linarith

/-! ## C5: greedy baseline termination. -/

/-- C5: the greedy baseline does not terminate on a location whose demand
exceeds the vehicle capacity.  On oversizedDemandProblem (one location of
demand 100 against capacity 80) every amount of fuel leaves the outer loop in
the same state: the location is never routed, never removed from the
unvisited set and never reported unassigned, and no route is ever produced -
the Python while-loop repeats this state forever. -/
theorem baseline_diverges_on_oversized_demand :
    ∀ fuel,
      (createBaselineSolution oversizedDemandProblem.dist
        oversizedDemandProblem.dem oversizedDemandProblem.cap
        oversizedDemandProblem.n fuel).2 = [1] ∧
      (createBaselineSolution oversizedDemandProblem.dist
        oversizedDemandProblem.dem oversizedDemandProblem.cap
        oversizedDemandProblem.n fuel).1.routes = [] := by
  have hone : (1 : Nat) = 0 + 1 := rfl
  have hfind : findNearest oversizedDemandProblem.dist 0 [1]
      = some (1, 1) := rfl
  have hbuild : buildRoute oversizedDemandProblem.dist
      oversizedDemandProblem.dem oversizedDemandProblem.cap 1 0 0 [] 0 0 [1]
      = { added := [], totalDistance := 0, totalDemand := 0,
          remaining := [1], cur := 0 } := by
    rw [hone, buildRoute,
      if_neg (by norm_num [oversizedDemandProblem]), hfind]
    dsimp only
    rw [if_pos (by norm_num [oversizedDemandProblem])]
  have key : ∀ f, baselineLoop oversizedDemandProblem.dist
      oversizedDemandProblem.dem oversizedDemandProblem.cap f [1] 0 []
      = ([], [1]) := by
    intro f
    induction f with
    | zero => rfl
    | succ f ih =>
        rw [baselineLoop]
        rw [if_neg (by decide : ¬ ([1] : List Nat) = [])]
        simp only [List.length_singleton, hbuild]
        exact ih
  intro fuel
  have hrange : List.range' 1 (oversizedDemandProblem.n - 1) = [1] := by decide
  constructor
  · show (baselineLoop oversizedDemandProblem.dist oversizedDemandProblem.dem
      oversizedDemandProblem.cap fuel
      (List.range' 1 (oversizedDemandProblem.n - 1)) 0 []).2 = [1]
    rw [hrange, key fuel]
  · show (baselineLoop oversizedDemandProblem.dist oversizedDemandProblem.dem
      oversizedDemandProblem.cap fuel
      (List.range' 1 (oversizedDemandProblem.n - 1)) 0 []).1 = []
    rw [hrange, key fuel]

/-! ## C7: optimizer objective versus greedy baseline. -/

/-- Splitting the full route cost into the extraction-style partial cost plus
the final return arc from the last position. -/
theorem pathCost_eq (dist : Nat → Nat → ℚ) :
    ∀ (l : List Nat) (c : Nat),
      pathCost dist c l = partialPathCost dist c l + dist (l.getLastD c) 0 := by
  intro l
  induction l with
  | nil => intro c; simp [pathCost, partialPathCost, List.getLastD]
  | cons v rest ih =>
      intro c
      rw [pathCost, partialPathCost, List.getLastD_cons, ih v]
      ring

/-- The nearest-neighbour fold from a genuine running best returns a genuine
pair: the stored distance belongs to the stored location, which was seen. -/
theorem findNearest_fold_basic (dist : Nat → Nat → ℚ) (cur : Nat) :
    ∀ (l : List Nat) (b c : Nat) (cd : ℚ),
      List.foldl
        (fun acc loc =>
          match acc with
          | none => some (loc, dist cur loc)
          | some (_, bestD) =>
              if dist cur loc < bestD then some (loc, dist cur loc) else acc)
        (some (b, dist cur b)) l = some (c, cd) →
      cd = dist cur c ∧ (c = b ∨ c ∈ l) := by
  intro l
  induction l with
  | nil =>
      intro b c cd h
      simp only [List.foldl_nil, Option.some.injEq, Prod.mk.injEq] at h
      obtain ⟨rfl, rfl⟩ := h
      exact ⟨rfl, Or.inl rfl⟩
  | cons v rest ih =>
      intro b c cd h
      rw [List.foldl_cons] at h
      dsimp only at h
      by_cases hlt : dist cur v < dist cur b
      · rw [if_pos hlt] at h
        obtain ⟨h1, h2⟩ := ih v c cd h
        exact ⟨h1, Or.inr (List.mem_cons.mpr h2)⟩
      · rw [if_neg hlt] at h
        obtain ⟨h1, h2⟩ := ih b c cd h
        exact ⟨h1, h2.imp id (List.mem_cons_of_mem v)⟩

/-- A successful nearest-neighbour scan returns a member of the unvisited
collection together with its genuine distance. -/
theorem findNearest_some (dist : Nat → Nat → ℚ) (cur : Nat) :
    ∀ (l : List Nat) (c : Nat) (cd : ℚ),
      findNearest dist cur l = some (c, cd) → cd = dist cur c ∧ c ∈ l := by
  intro l c cd h
  match l, h with
  | [], h => simp [findNearest] at h
  | v :: rest, h =>
      rw [findNearest, List.foldl_cons] at h
      dsimp only at h
      obtain ⟨h1, h2⟩ := findNearest_fold_basic dist cur rest v c cd h
      exact ⟨h1, List.mem_cons.mpr h2⟩

/-- Appending one stop to a capacity-feasible chain stays feasible when the
total demand including the newcomer fits. -/
theorem capacityOk_append_singleton (dem : Nat → ℚ) (cap : ℚ) (a : Nat) :
    ∀ (l : List Nat) (acc : ℚ), CapacityOk dem cap acc l →
      acc + ((l.map dem).sum + dem a) ≤ cap →
      CapacityOk dem cap acc (l ++ [a]) := by
  intro l
  induction l with
  | nil =>
      intro acc _ hle
      refine ⟨?_, trivial⟩
      simpa using hle
  | cons v rest ih =>
      intro acc hok hle
      obtain ⟨h1, h2⟩ := hok
      simp only [List.map_cons, List.sum_cons] at hle
      exact ⟨h1, ih (acc + dem v) h2 (by linarith)⟩

/-- Structure of the inner greedy loop's result: it extends the accumulated
stop list by a chain of locations drawn from the unvisited collection,
accumulates exactly the partial path cost of that chain, ends at the chain's
last position, and removes from the unvisited collection exactly the
occurrences it added. -/
theorem buildRoute_spec (dist : Nat → Nat → ℚ) (dem : Nat → ℚ) (cap : ℚ) :
    ∀ (fuel cur : Nat) (curCap : ℚ) (added : List Nat) (td tdem : ℚ)
      (unvisited : List Nat),
      ∃ extra,
        (buildRoute dist dem cap fuel cur curCap added td tdem
          unvisited).added = added ++ extra ∧
        (buildRoute dist dem cap fuel cur curCap added td tdem
          unvisited).totalDistance = td + partialPathCost dist cur extra ∧
        (buildRoute dist dem cap fuel cur curCap added td tdem
          unvisited).cur = extra.getLastD cur ∧
        (∀ j, (buildRoute dist dem cap fuel cur curCap added td tdem
          unvisited).remaining.count j + extra.count j
          = unvisited.count j) ∧
        (∀ v ∈ extra, v ∈ unvisited) := by
  intro fuel
  induction fuel with
  | zero =>
      intro cur curCap added td tdem unvisited
      exact ⟨[], by simp [buildRoute], by simp [buildRoute, partialPathCost],
        by simp [buildRoute, List.getLastD], by simp [buildRoute],
        by simp⟩
  | succ fuel ih =>
      intro cur curCap added td tdem unvisited
      rw [buildRoute]
      by_cases hguard : unvisited = [] ∨ ¬ curCap < cap * (9 / 10)
      · rw [if_pos hguard]
        exact ⟨[], by simp, by simp [partialPathCost],
          by simp [List.getLastD], by simp, by simp⟩
      · rw [if_neg hguard]
        cases hfind : findNearest dist cur unvisited with
        | none =>
            exact ⟨[], by simp, by simp [partialPathCost],
              by simp [List.getLastD], by simp, by simp⟩
        | some pr =>
            obtain ⟨nearest, nd⟩ := pr
            obtain ⟨hnd, hmem⟩ := findNearest_some dist cur unvisited nearest
              nd hfind
            dsimp only
            by_cases hover : cap < curCap + dem nearest
            · rw [if_pos hover]
              exact ⟨[], by simp, by simp [partialPathCost],
                by simp [List.getLastD], by simp, by simp⟩
            · rw [if_neg hover]
              obtain ⟨extra, ih1, ih2, ih3, ih4, ih5⟩ := ih nearest
                (curCap + dem nearest) (added ++ [nearest]) (td + nd)
                (tdem + dem nearest) (unvisited.erase nearest)
              refine ⟨nearest :: extra, ?_, ?_, ?_, ?_, ?_⟩
              · rw [ih1]; simp
              · rw [ih2, partialPathCost, hnd]; ring
              · rw [ih3, List.getLastD_cons]
              · intro j
                have h4 := ih4 j
                rw [List.count_erase] at h4
                rw [List.count_cons]
                simp only [beq_iff_eq] at h4 ⊢
                have hpos : 0 < unvisited.count nearest :=
                  List.count_pos_iff.mpr hmem
                by_cases hj : nearest = j
                · subst hj
                  rw [if_pos rfl] at h4 ⊢
                  omega
                · rw [if_neg hj]
                  rw [if_neg hj] at h4
                  omega
              · intro v hv
                rcases List.mem_cons.mp hv with rfl | hv
                · exact hmem
                · exact List.mem_of_mem_erase (ih5 v hv)

/-- The inner greedy loop preserves capacity feasibility of the accumulated
stop list: every extension is guarded by the full-capacity check. -/
theorem buildRoute_capacityOk (dist : Nat → Nat → ℚ) (dem : Nat → ℚ)
    (cap : ℚ) :
    ∀ (fuel cur : Nat) (curCap : ℚ) (added : List Nat) (td tdem : ℚ)
      (unvisited : List Nat),
      curCap = (added.map dem).sum →
      CapacityOk dem cap 0 added →
      CapacityOk dem cap 0
        (buildRoute dist dem cap fuel cur curCap added td tdem
          unvisited).added := by
  intro fuel
  induction fuel with
  | zero =>
      intro cur curCap added td tdem unvisited _ hok
      simpa [buildRoute] using hok
  | succ fuel ih =>
      intro cur curCap added td tdem unvisited hcap hok
      rw [buildRoute]
      by_cases hguard : unvisited = [] ∨ ¬ curCap < cap * (9 / 10)
      · rw [if_pos hguard]; exact hok
      · rw [if_neg hguard]
        cases hfind : findNearest dist cur unvisited with
        | none => exact hok
        | some pr =>
            obtain ⟨nearest, nd⟩ := pr
            dsimp only
            by_cases hover : cap < curCap + dem nearest
            · rw [if_pos hover]; exact hok
            · rw [if_neg hover]
              refine ih nearest (curCap + dem nearest) (added ++ [nearest])
                (td + nd) (tdem + dem nearest) (unvisited.erase nearest)
                (by simp [hcap]) ?_
              refine capacityOk_append_singleton dem cap nearest added 0 hok ?_
              rw [← hcap]
              linarith [le_of_not_lt hover]

/-- Structure of the outer greedy loop: occurrence counts are conserved (the
interiors of the recorded routes plus the still-unvisited remainder make up
exactly the initial unvisited collection), and every recorded route either
was already accumulated or is capacity-feasible, carries as total_distance
the full depot-to-depot path cost of its interior, and draws its interior
from the unvisited collection. -/
theorem baselineLoop_spec (dist : Nat → Nat → ℚ) (dem : Nat → ℚ) (cap : ℚ) :
    ∀ (fuel : Nat) (unvisited : List Nat) (vid : Nat)
      (acc : List BaselineRoute),
      (∀ j, ((baselineLoop dist dem cap fuel unvisited vid acc).1.map
          (fun r => (interiorStops r.stops).count j)).sum
          + (baselineLoop dist dem cap fuel unvisited vid acc).2.count j
        = (acc.map (fun r => (interiorStops r.stops).count j)).sum
          + unvisited.count j) ∧
      (∀ r ∈ (baselineLoop dist dem cap fuel unvisited vid acc).1,
        r ∈ acc ∨
        (CapacityOk dem cap 0 (interiorStops r.stops) ∧
         r.totalDistance = pathCost dist 0 (interiorStops r.stops) ∧
         ∀ v ∈ interiorStops r.stops, v ∈ unvisited)) := by
  intro fuel
  induction fuel with
  | zero =>
      intro unvisited vid acc
      exact ⟨fun j => rfl, fun r hr => Or.inl hr⟩
  | succ fuel ih =>
      intro unvisited vid acc
      rw [baselineLoop]
      by_cases hempty : unvisited = []
      · rw [if_pos hempty]
        exact ⟨fun j => rfl, fun r hr => Or.inl hr⟩
      · rw [if_neg hempty]
        dsimp only
        obtain ⟨extra, hb1, hb2, hb3, hb4, hb5⟩ :=
          buildRoute_spec dist dem cap unvisited.length 0 0 [] 0 0 unvisited
        have hcapok := buildRoute_capacityOk dist dem cap unvisited.length 0 0
          [] 0 0 unvisited (by simp) trivial
        set b := buildRoute dist dem cap unvisited.length 0 0 [] 0 0 unvisited
          with hbdef
        rw [List.nil_append] at hb1
        rw [zero_add] at hb2
        have hmemup : ∀ (rem : List Nat),
            (∀ j, rem.count j + extra.count j = unvisited.count j) →
            ∀ v ∈ rem, v ∈ unvisited := by
          intro rem hcnt v hv
          have hvpos : 0 < rem.count v := List.count_pos_iff.mpr hv
          have := hcnt v
          exact List.count_pos_iff.mp (by omega)
        by_cases hadded : b.added = []
        · rw [if_pos hadded]
          have hextra : extra = [] := by rw [← hb1]; exact hadded
          obtain ⟨ihc, ihr⟩ := ih b.remaining vid acc
          constructor
          · intro j
            rw [ihc j]
            have h4 := hb4 j
            rw [hextra] at h4
            simp only [List.count_nil, Nat.add_zero] at h4
            rw [h4]
          · intro r hr
            rcases ihr r hr with h | ⟨hc, hd, hm⟩
            · exact Or.inl h
            · exact Or.inr ⟨hc, hd, fun v hv => hmemup b.remaining hb4 v
                (hm v hv)⟩
        · rw [if_neg hadded]
          have hint : interiorStops ((0 :: b.added) ++ [0]) = b.added := by
            simp only [interiorStops, List.cons_append, List.tail_cons]
            exact List.dropLast_concat
          obtain ⟨ihc, ihr⟩ := ih b.remaining (vid + 1)
            (acc ++ [{ vehicleId := vid
                       stops := 0 :: b.added ++ [0]
                       totalDistance := b.totalDistance + dist b.cur 0
                       totalDemand := b.totalDemand }])
          constructor
          · intro j
            rw [ihc j]
            simp only [List.map_append, List.sum_append, List.map_cons,
              List.map_nil, List.sum_cons, List.sum_nil]
            have h4 := hb4 j
            have hintc : (interiorStops
                ({ vehicleId := vid
                   stops := 0 :: b.added ++ [0]
                   totalDistance := b.totalDistance + dist b.cur 0
                   totalDemand := b.totalDemand } : BaselineRoute).stops).count j
                = extra.count j := by
              show (interiorStops ((0 :: b.added) ++ [0])).count j
                = extra.count j
              rw [hint, hb1]
            rw [hintc]
            omega
          · intro r hr
            rcases ihr r hr with h | ⟨hc, hd, hm⟩
            · rcases List.mem_append.mp h with h | h
              · exact Or.inl h
              · have hre := List.mem_singleton.mp h
                subst hre
                refine Or.inr ⟨?_, ?_, ?_⟩
                · show CapacityOk dem cap 0
                    (interiorStops ((0 :: b.added) ++ [0]))
                  rw [hint]
                  exact hcapok
                · show b.totalDistance + dist b.cur 0
                    = pathCost dist 0 (interiorStops ((0 :: b.added) ++ [0]))
                  rw [hint, hb1, hb2, hb3, pathCost_eq]
                · intro v hv
                  have hv2 : v ∈ b.added := by
                    have : interiorStops ((0 :: b.added) ++ [0]) = b.added :=
                      hint
                    exact this ▸ hv
                  rw [hb1] at hv2
                  exact hb5 v hv2
            · exact Or.inr ⟨hc, hd, fun v hv => hmemup b.remaining hb4 v
                (hm v hv)⟩

/-- C7 amended: for a solve without time windows, whenever the greedy
baseline covers every non-depot location (nothing left unvisited) and its
route count fits the solver's vehicle count, an optimal solution's objective
is at most the baseline's total distance (with the matrix diagonal zero, as
the builder guarantees). -/
theorem optimizer_matches_covering_baseline (p : Problem)
    (cfg : DeliveryConfig) (s : RoutingSolution) (fuel : Nat)
    (hopt : OptimalFor p cfg false s)
    (hcover : (createBaselineSolution p.dist p.dem p.cap p.n fuel).2 = [])
    (hfit :
      (createBaselineSolution p.dist p.dem p.cap p.n fuel).1.routes.length
        ≤ p.numVehicles)
    (hd00 : p.dist 0 0 = 0) :
    solutionCost p.dist s
      ≤ (createBaselineSolution p.dist p.dem p.cap
          p.n fuel).1.totalDistance := by
  obtain ⟨hspec1, hspec2⟩ := baselineLoop_spec p.dist p.dem p.cap fuel
    (List.range' 1 (p.n - 1)) 0 []
  have hrem : (createBaselineSolution p.dist p.dem p.cap p.n fuel).2
      = (baselineLoop p.dist p.dem p.cap fuel
          (List.range' 1 (p.n - 1)) 0 []).2 := rfl
  set L := (baselineLoop p.dist p.dem p.cap fuel
    (List.range' 1 (p.n - 1)) 0 []).1 with hL
  have hroutes :
      (createBaselineSolution p.dist p.dem p.cap p.n fuel).1.routes = L := rfl
  have htot :
      (createBaselineSolution p.dist p.dem p.cap p.n fuel).1.totalDistance
        = (L.map (fun r => r.totalDistance)).sum := rfl
  have hremnil : (baselineLoop p.dist p.dem p.cap fuel
      (List.range' 1 (p.n - 1)) 0 []).2 = [] := by rw [← hrem]; exact hcover
  have hLspec : ∀ r ∈ L, CapacityOk p.dem p.cap 0 (interiorStops r.stops) ∧
      r.totalDistance = pathCost p.dist 0 (interiorStops r.stops) ∧
      ∀ v ∈ interiorStops r.stops, v ∈ List.range' 1 (p.n - 1) := by
    intro r hr
    rcases hspec2 r hr with h | h
    · simp at h
    · exact h
  have hLcount : ∀ j,
      (L.map (fun r => (interiorStops r.stops).count j)).sum
        = (List.range' 1 (p.n - 1)).count j := by
    intro j
    have h1 := hspec1 j
    rw [hremnil] at h1
    simpa using h1
  have hfitL : L.length ≤ p.numVehicles := by rw [← hroutes]; exact hfit
  set sol : RoutingSolution :=
    { routes := L.map (fun r => interiorStops r.stops)
        ++ List.replicate (p.numVehicles - L.length) [] } with hsol
  have hrange_mem : ∀ v, v ∈ List.range' 1 (p.n - 1) → 0 < v ∧ v < p.n := by
    intro v hv
    rw [List.mem_range'] at hv
    obtain ⟨i, hi, rfl⟩ := hv
    omega
  have hfeas : Feasible p cfg false sol := by
    refine ⟨⟨?_, ?_, ?_⟩, ?_, ?_⟩
    · simp only [hsol, List.length_append, List.length_map,
        List.length_replicate]
      omega
    · intro r hr v hv
      simp only [hsol] at hr
      rcases List.mem_append.mp hr with hr | hr
      · obtain ⟨r0, hr0, rfl⟩ := List.mem_map.mp hr
        exact hrange_mem v ((hLspec r0 hr0).2.2 v hv)
      · rw [List.eq_of_mem_replicate hr] at hv
        simp at hv
    · intro j hj1 hj2
      simp only [hsol, List.map_append, List.sum_append, List.map_map]
      have hrep : ((List.replicate (p.numVehicles - L.length)
          ([] : List Nat)).map (fun r => r.count j)).sum = 0 := by
        rw [List.map_replicate]
        simp
      rw [hrep]
      have hcomp : (L.map ((fun r : List Nat => r.count j)
          ∘ (fun r => interiorStops r.stops))).sum
          = (L.map (fun r => (interiorStops r.stops).count j)).sum := rfl
      rw [hcomp, hLcount j]
      have hmem : j ∈ List.range' 1 (p.n - 1) := by
        rw [List.mem_range']
        exact ⟨j - 1, by omega, by omega⟩
      exact List.count_eq_one_of_mem (List.nodup_range' 1 (p.n - 1)) hmem
    · intro r hr
      simp only [hsol] at hr
      rcases List.mem_append.mp hr with hr | hr
      · obtain ⟨r0, hr0, rfl⟩ := List.mem_map.mp hr
        exact (hLspec r0 hr0).1
      · rw [List.eq_of_mem_replicate hr]
        trivial
    · intro h
      simp at h
  have hcost : solutionCost p.dist sol
      = (L.map (fun r => r.totalDistance)).sum := by
    simp only [hsol, solutionCost, List.map_append, List.sum_append,
      List.map_map]
    have hrep : ((List.replicate (p.numVehicles - L.length)
        ([] : List Nat)).map (pathCost p.dist 0)).sum = 0 := by
      rw [List.map_replicate]
      have : pathCost p.dist 0 ([] : List Nat) = 0 := by
        rw [pathCost, hd00]
      rw [this]
      simp
    rw [hrep, add_zero]
    have : L.map (pathCost p.dist 0 ∘ (fun r => interiorStops r.stops))
        = L.map (fun r => r.totalDistance) := by
      refine List.map_congr_left ?_
      intro r hr
      exact ((hLspec r hr).2.1).symm
    rw [this]
  rw [htot, ← hcost]
  exact hopt.2 sol hfeas

/-- Every path costs nothing under the all-zero distance function. -/
theorem pathCost_zeroProblem :
    ∀ (l : List Nat) (c : Nat), pathCost zeroProblem.dist c l = 0 := by
  intro l
  induction l with
  | nil => intro c; rw [pathCost]; norm_num [zeroProblem]
  | cons v rest ih =>
      intro c
      rw [pathCost, ih v]
      norm_num [zeroProblem]

/-- With all distances zero every assignment is optimal; this one is also
feasible. -/
theorem zeroProblem_optimal :
    OptimalFor zeroProblem defaultDelivery false zeroSolution := by
  constructor
  · refine ⟨⟨rfl, by decide, ?_⟩, ?_, ?_⟩
    · intro j hj1 hj2
      simp only [zeroProblem] at hj2
      interval_cases j <;> decide
    · intro r hr
      simp only [zeroSolution, List.mem_cons, List.not_mem_nil, or_false]
        at hr
      rcases hr with rfl | rfl | rfl <;> norm_num [CapacityOk, zeroProblem]
    · intro h
      simp at h
  · intro s2 _
    have h1 : solutionCost zeroProblem.dist zeroSolution = 0 := by
      simp [solutionCost, zeroSolution, pathCost_zeroProblem]
    have h2 : solutionCost zeroProblem.dist s2 = 0 := by
      rw [solutionCost]
      apply List.sum_eq_zero
      intro x hx
      obtain ⟨r, _, rfl⟩ := List.mem_map.mp hx
      exact pathCost_zeroProblem r 0
    rw [h1, h2]

/-- The greedy baseline on zeroProblem: one covering route, zero distance. -/
theorem zeroProblem_baseline :
    (createBaselineSolution zeroProblem.dist zeroProblem.dem zeroProblem.cap
      zeroProblem.n 2).2 = [] ∧
    (createBaselineSolution zeroProblem.dist zeroProblem.dem zeroProblem.cap
      zeroProblem.n 2).1.routes.length = 1 ∧
    (createBaselineSolution zeroProblem.dist zeroProblem.dem zeroProblem.cap
      zeroProblem.n 2).1.totalDistance = 0 := by
  have e1 : (0 : ℚ) < 80 * (9 / 10) := by norm_num
  have e2 : ¬ (80 : ℚ) < 10 := by norm_num
  have e3 : (10 : ℚ) < 80 * (9 / 10) := by norm_num
  have e4 : ¬ (80 : ℚ) < 10 + 10 := by norm_num
  refine ⟨?_, ?_, ?_⟩ <;>
    simp [createBaselineSolution, baselineLoop, buildRoute, findNearest,
      zeroProblem, List.range', e1, e2, e3, e4]

/-- Witness for the amended C7 on the all-zero-distance instance. -/
theorem optimizer_matches_covering_baseline_witness :
    OptimalFor zeroProblem defaultDelivery false zeroSolution ∧
    (createBaselineSolution zeroProblem.dist zeroProblem.dem zeroProblem.cap
      zeroProblem.n 2).2 = [] ∧
    (createBaselineSolution zeroProblem.dist zeroProblem.dem zeroProblem.cap
      zeroProblem.n 2).1.routes.length ≤ zeroProblem.numVehicles ∧
    zeroProblem.dist 0 0 = 0 ∧
    solutionCost zeroProblem.dist zeroSolution
      ≤ (createBaselineSolution zeroProblem.dist zeroProblem.dem
          zeroProblem.cap zeroProblem.n 2).1.totalDistance :=
  ⟨zeroProblem_optimal,
   zeroProblem_baseline.1,
   by rw [zeroProblem_baseline.2.1]; norm_num [zeroProblem],
   rfl,
   optimizer_matches_covering_baseline zeroProblem defaultDelivery
     zeroSolution 2 zeroProblem_optimal zeroProblem_baseline.1
     (by rw [zeroProblem_baseline.2.1]; norm_num [zeroProblem]) rfl⟩

/-- The forced covering of twForcedProblem is feasible with time windows. -/
theorem twForced_solution_feasible :
    Feasible twForcedProblem defaultDelivery true twForcedSolution := by
  refine ⟨⟨rfl, by decide, ?_⟩, ?_, ?_⟩
  · intro j hj1 hj2
    simp only [twForcedProblem] at hj2
    interval_cases j <;> decide
  · intro r hr
    simp only [twForcedSolution, List.mem_cons, List.not_mem_nil, or_false]
      at hr
    rcases hr with rfl | rfl | rfl <;> norm_num [CapacityOk, twForcedProblem]
  · intro _ r hr
    simp only [twForcedSolution, List.mem_cons, List.not_mem_nil, or_false]
      at hr
    rcases hr with rfl | rfl | rfl
    · refine ⟨480, by norm_num [twForcedProblem],
        by norm_num [twForcedProblem], by norm_num,
        by norm_num [horizon, defaultDelivery], ?_⟩
      rw [TimeOk]
      refine ⟨0, by norm_num, by norm_num, by norm_num [twForcedProblem],
        by norm_num [twForcedProblem], by norm_num [twForcedProblem],
        by norm_num [twForcedProblem, horizon, defaultDelivery], ?_⟩
      rw [TimeOk]
      refine ⟨0, by norm_num, by norm_num, by norm_num [twForcedProblem],
        by norm_num [twForcedProblem], by norm_num [twForcedProblem],
        by norm_num [twForcedProblem, horizon, defaultDelivery], ?_⟩
      rw [TimeOk]
      exact ⟨0, by norm_num, by norm_num, by norm_num [twForcedProblem],
        by norm_num [twForcedProblem, horizon, defaultDelivery]⟩
    · refine ⟨480, by norm_num [twForcedProblem],
        by norm_num [twForcedProblem], by norm_num,
        by norm_num [horizon, defaultDelivery], ?_⟩
      rw [TimeOk]
      exact ⟨0, by norm_num, by norm_num, by norm_num [twForcedProblem],
        by norm_num [twForcedProblem, horizon, defaultDelivery]⟩
    · refine ⟨480, by norm_num [twForcedProblem],
        by norm_num [twForcedProblem], by norm_num,
        by norm_num [horizon, defaultDelivery], ?_⟩
      rw [TimeOk]
      exact ⟨0, by norm_num, by norm_num, by norm_num [twForcedProblem],
        by norm_num [twForcedProblem, horizon, defaultDelivery]⟩

/-- No time-feasible route of twForcedProblem starts with customer 2: the
depot start cumul is at least 480, the arc into 2 takes 1 minute, waiting is
non-negative, and the window of 2 closes at 480. -/
theorem twForced_no_head_two (rest : List Nat) :
    ¬ RouteTimeOk twForcedProblem defaultDelivery (2 :: rest) := by
  rintro ⟨t0, hlo, _, _, _, htime⟩
  rw [TimeOk] at htime
  obtain ⟨sl, hs0, _, _, hhi2, _, _, _⟩ := htime
  have h1 : twForcedProblem.tmat 0 2 = 1 := by norm_num [twForcedProblem]
  have h2 : twForcedProblem.winHi 2 = 480 := by norm_num [twForcedProblem]
  have h3 : (480 : ℚ) ≤ t0 := by
    have h := hlo
    norm_num [twForcedProblem] at h
    exact h
  rw [h1, h2] at hhi2
  linarith

/-- A list over the alphabet 1, 2 with each letter occurring at most once is
one of the five candidate routes. -/
theorem small_route_shapes (r : List Nat)
    (helem : ∀ v ∈ r, v = 1 ∨ v = 2)
    (h1 : r.count 1 ≤ 1) (h2 : r.count 2 ≤ 1) :
    r = [] ∨ r = [1] ∨ r = [2] ∨ r = [1, 2] ∨ r = [2, 1] := by
  match r, helem, h1, h2 with
  | [], _, _, _ => exact Or.inl rfl
  | [a], helem, _, _ =>
      rcases helem a (by simp) with rfl | rfl
      · exact Or.inr (Or.inl rfl)
      · exact Or.inr (Or.inr (Or.inl rfl))
  | [a, b], helem, h1, h2 =>
      rcases helem a (by simp) with rfl | rfl <;>
        rcases helem b (by simp) with rfl | rfl
      · exact absurd h1 (by simp [List.count_cons])
      · exact Or.inr (Or.inr (Or.inr (Or.inl rfl)))
      · exact Or.inr (Or.inr (Or.inr (Or.inr rfl)))
      · exact absurd h2 (by simp [List.count_cons])
  | a :: b :: c :: rest2, helem, h1, h2 =>
      exfalso
      rcases helem a (by simp) with rfl | rfl <;>
        rcases helem b (by simp) with rfl | rfl <;>
          rcases helem c (by simp) with rfl | rfl <;>
            simp [List.count_cons] at h1 h2 <;> omega

/-- Every solution of twForcedProblem that satisfies all the registered
constraints serves both customers on one vehicle in the order 1, 2, for an
objective of exactly 30. -/
theorem twForced_feasible_cost (s2 : RoutingSolution)
    (hfeas : Feasible twForcedProblem defaultDelivery true s2) :
    solutionCost twForcedProblem.dist s2 = 30 := by
  obtain ⟨⟨hlen, hmem, hcount⟩, _, htw⟩ := hfeas
  obtain ⟨routes⟩ := s2
  match routes, hlen, hmem, hcount, htw with
  | [r1, r2, r3], _, hmem, hcount, htw =>
      have hc1 := hcount 1 (by decide) (by norm_num [twForcedProblem])
      have hc2 := hcount 2 (by decide) (by norm_num [twForcedProblem])
      simp only [List.map_cons, List.map_nil, List.sum_cons, List.sum_nil,
        Nat.add_zero] at hc1 hc2
      have helem : ∀ r ∈ ([r1, r2, r3] : List (List Nat)),
          ∀ v ∈ r, v = 1 ∨ v = 2 := by
        intro r hr v hv
        have h := hmem r hr v hv
        simp only [twForcedProblem] at h
        omega
      have hsh1 := small_route_shapes r1 (helem r1 (by simp)) (by omega)
        (by omega)
      have hsh2 := small_route_shapes r2 (helem r2 (by simp)) (by omega)
        (by omega)
      have hsh3 := small_route_shapes r3 (helem r3 (by simp)) (by omega)
        (by omega)
      have hdet : ∀ r, r ∈ ([r1, r2, r3] : List (List Nat)) →
          (r = [] ∨ r = [1] ∨ r = [2] ∨ r = [1, 2] ∨ r = [2, 1]) →
          r.count 2 = 1 → r = [1, 2] := by
        intro r hr hsh hc
        rcases hsh with rfl | rfl | rfl | rfl | rfl
        · simp at hc
        · simp at hc
        · exact absurd (htw rfl _ hr) (twForced_no_head_two [])
        · rfl
        · exact absurd (htw rfl _ hr) (twForced_no_head_two [1])
      have hempty : ∀ r : List Nat,
          (r = [] ∨ r = [1] ∨ r = [2] ∨ r = [1, 2] ∨ r = [2, 1]) →
          r.count 1 = 0 → r.count 2 = 0 → r = [] := by
        intro r hsh hz1 hz2
        rcases hsh with rfl | rfl | rfl | rfl | rfl
        · rfl
        · simp at hz1
        · simp at hz2
        · simp at hz1
        · simp at hz1
      have h2cases : (r1.count 2 = 1 ∧ r2.count 2 = 0 ∧ r3.count 2 = 0)
          ∨ (r1.count 2 = 0 ∧ r2.count 2 = 1 ∧ r3.count 2 = 0)
          ∨ (r1.count 2 = 0 ∧ r2.count 2 = 0 ∧ r3.count 2 = 1) := by
        omega
      rcases h2cases with ⟨ha, hb, hc⟩ | ⟨ha, hb, hc⟩ | ⟨ha, hb, hc⟩
      · have e1 : r1 = [1, 2] := hdet r1 (by simp) hsh1 ha
        have h11 : r1.count 1 = 1 := by rw [e1]; decide
        have e2 : r2 = [] := hempty r2 hsh2 (by omega) hb
        have e3 : r3 = [] := hempty r3 hsh3 (by omega) hc
        subst e1; subst e2; subst e3
        norm_num [solutionCost, pathCost, twForcedProblem]
      · have e2 : r2 = [1, 2] := hdet r2 (by simp) hsh2 hb
        have h21 : r2.count 1 = 1 := by rw [e2]; decide
        have e1 : r1 = [] := hempty r1 hsh1 (by omega) ha
        have e3 : r3 = [] := hempty r3 hsh3 (by omega) hc
        subst e1; subst e2; subst e3
        norm_num [solutionCost, pathCost, twForcedProblem]
      · have e3 : r3 = [1, 2] := hdet r3 (by simp) hsh3 hc
        have h31 : r3.count 1 = 1 := by rw [e3]; decide
        have e1 : r1 = [] := hempty r1 hsh1 (by omega) ha
        have e2 : r2 = [] := hempty r2 hsh2 (by omega) hb
        subst e1; subst e2; subst e3
        norm_num [solutionCost, pathCost, twForcedProblem]

/-- The greedy baseline on twForcedProblem takes the cheap arcs (2 first,
then 1) for a total distance of 3, ignoring the time windows entirely. -/
theorem twForced_baseline :
    (createBaselineSolution twForcedProblem.dist twForcedProblem.dem
      twForcedProblem.cap twForcedProblem.n 2).1.totalDistance = 3 := by
  have e1 : (0 : ℚ) < 80 * (9 / 10) := by norm_num
  have e2 : ¬ (80 : ℚ) < 1 := by norm_num
  have e3 : (1 : ℚ) < 80 * (9 / 10) := by norm_num
  have e4 : ¬ (80 : ℚ) < 1 + 1 := by norm_num
  have e5 : (1 : ℚ) < 10 := by norm_num
  simp [createBaselineSolution, baselineLoop, buildRoute, findNearest,
    twForcedProblem, List.range', e1, e2, e3, e4, e5]
  norm_num

/-- C7 counterexample: on twForcedProblem the time windows force the unique
feasible (hence optimal) solution onto the expensive arcs, objective 30,
while the time-window-blind greedy baseline takes the cheap arcs, total
distance 3 - the optimizer's reported objective exceeds the baseline. -/
theorem optimizer_exceeds_baseline_cex :
    OptimalFor twForcedProblem defaultDelivery true twForcedSolution ∧
    solutionCost twForcedProblem.dist twForcedSolution = 30 ∧
    (createBaselineSolution twForcedProblem.dist twForcedProblem.dem
      twForcedProblem.cap twForcedProblem.n 2).1.totalDistance = 3 ∧
    ¬ solutionCost twForcedProblem.dist twForcedSolution
        ≤ (createBaselineSolution twForcedProblem.dist twForcedProblem.dem
            twForcedProblem.cap twForcedProblem.n 2).1.totalDistance := by
  have hcost : solutionCost twForcedProblem.dist twForcedSolution = 30 := by
    norm_num [solutionCost, pathCost, twForcedSolution, twForcedProblem]
  refine ⟨⟨twForced_solution_feasible, ?_⟩, hcost, twForced_baseline, ?_⟩
  · intro s2 hs2
    rw [hcost, twForced_feasible_cost s2 hs2]
  · rw [hcost, twForced_baseline]
    norm_num

end DeliveryLpg
